import Mathlib

/-!
Verification of the tidc log decoder: a shallow embedding of the
scanning/grammar engine (src/parser/scanner.rs, src/parser/artifacts.rs)
and of the JSON serializer (src/json_writer/mod.rs), together with
theorems settling the specification claims.

Strings are modelled as `List Char`; indices count characters (the Rust
code manipulates byte indices but only ever at character boundaries
produced by `char_indices`, so the two views coincide on every reachable
call). Interior mutability of the Rust `Scanner` is modelled by explicit
state passing: every fallible operation takes the scanner state and
returns the `Except` result together with the state as mutated so far
(Rust `Cell` writes persist across an `Err` return, and so does the
second component here).
-/

namespace Tidc

/-- Embeds `ParseError` from src/parser/mod.rs: `Unexpected` carries the expected
and found tokens plus a context hint; `Empty` is input exhaustion. -/
inductive ParseError where
  | Unexpected (expected : String) (got : String) (hint : String)
  | Empty
deriving DecidableEq, Repr

instance {ε α : Type} [DecidableEq ε] [DecidableEq α] : DecidableEq (Except ε α) := fun a b =>
  match a, b with
  | .error e, .error e' =>
    if h : e = e' then .isTrue (by rw [h]) else .isFalse (by intro hc; cases hc; exact h rfl)
  | .ok v, .ok v' =>
    if h : v = v' then .isTrue (by rw [h]) else .isFalse (by intro hc; cases hc; exact h rfl)
  | .error _, .ok _ => .isFalse (by intro hc; cases hc)
  | .ok _, .error _ => .isFalse (by intro hc; cases hc)

/-- The scanner state of src/parser/scanner.rs: the original buffer, the
unconsumed remainder, and the cursor offset. -/
structure Scanner where
  target : List Char
  remain : List Char
  offset : Nat
deriving DecidableEq, Repr

/-- Embeds `Scanner::over`. -/
def Scanner.over (s : List Char) : Scanner :=
  { target := s, remain := s, offset := 0 }

/-- Embeds `Scanner::is_done`: the offset has reached the buffer length. -/
def Scanner.is_done (s : Scanner) : Bool :=
  decide (s.target.length ≤ s.offset)

/-- Embeds `Scanner::consume(n)`: fails with `Empty` when fewer than `n`
characters are left (checked against the original buffer length);
otherwise splits the remainder at `n`. -/
def Scanner.consume (s : Scanner) (n : Nat) : Except ParseError (List Char) × Scanner :=
  if s.target.length < s.offset + n then (.error .Empty, s)
  else (.ok (s.remain.take n),
        { target := s.target, remain := s.remain.drop n, offset := s.offset + n })

/-- Embeds `Scanner::drain`: consume everything up to the buffer length. -/
def Scanner.drain (s : Scanner) : Except ParseError (List Char) × Scanner :=
  s.consume (s.target.length - s.offset)

/-- Embeds `Scanner::peek_char`. -/
def Scanner.peek_char (s : Scanner) : Option Char :=
  s.remain.head?

/-- Embeds `Scanner::current_char`: next character, or a dollar sign at end. -/
def Scanner.current_char (s : Scanner) : Char :=
  s.remain.head?.getD (Char.ofNat 36)

/-- Embeds `char_need_quote` from src/parser/scanner.rs: control characters and
space (U+0000..=U+0020), equals sign, double quote, and both square
brackets. -/
def char_need_quote (ch : Char) : Bool :=
  decide (ch.toNat ≤ 32) || decide (ch = '=') || decide (ch = '"') ||
  decide (ch = '[') || decide (ch = ']')

/-- First index at which `p` holds, mirroring the `char_indices` search
loops of the Rust scanner (`unquoted_string`, `skip_until`,
`till_next_bracket`). -/
def find_idx (p : Char → Bool) : List Char → Option Nat
  | [] => none
  | c :: t => if p c then some 0 else (find_idx p t).map (· + 1)

/-- Embeds `Scanner::unquoted_string`: consume up to the first character that
needs quoting, or drain the rest of the buffer. -/
def Scanner.unquoted_string (s : Scanner) : Except ParseError (List Char) × Scanner :=
  match find_idx char_need_quote s.remain with
  | some i => s.consume i
  | none => s.drain

/-- Embeds `Scanner::context_before`: up to five characters before the cursor,
or a caret at the start. -/
def Scanner.context_before (s : Scanner) : List Char :=
  if s.offset = 0 then ['^']
  else if s.offset ≤ 5 then s.target.take s.offset
  else (s.target.drop (s.offset - 5)).take 5

/-- Embeds `Scanner::context_after`: up to ten characters from the cursor on. -/
def Scanner.context_after (s : Scanner) : List Char :=
  if s.target.length - s.offset = 0 then []
  else if s.target.length - s.offset ≤ 10 then s.remain.take (s.target.length - s.offset)
  else s.remain.take 10

/-- Embeds `Scanner::unexpected`: build an `Unexpected` error with the context
hint `before>current<after`. -/
def Scanner.unexpected (s : Scanner) (expected got : String) : ParseError :=
  .Unexpected expected got
    (String.mk (s.context_before ++ '>' :: s.current_char :: '<' :: s.context_after))

/-- The two-state escape automaton of `Scanner::quoted_string`: returns
the number of characters up to and including the terminating quote, or
`none` when the input ends first. The `escaping` flag is the
`State::Escaping` of the Rust code (initially set, so the first character
— the opening quote — never terminates). -/
def quoted_scan (escaping : Bool) : List Char → Option Nat
  | [] => none
  | c :: t =>
    if escaping then (quoted_scan false t).map (· + 1)
    else if c = '"' then some 1
    else if c = '\\' then (quoted_scan true t).map (· + 1)
    else (quoted_scan false t).map (· + 1)

/-- Embeds `Scanner::quoted_string`: run the escape automaton over the
remainder; on success consume through the closing quote, otherwise fail
with `Unexpected` (expected a quote, got EOF) without consuming. -/
def Scanner.quoted_string (s : Scanner) : Except ParseError (List Char) × Scanner :=
  match quoted_scan true s.remain with
  | some n => s.consume n
  | none => (.error (s.unexpected "\"" "EOF"), s)

/-- Embeds `Scanner::assert_current_is`. -/
def Scanner.assert_current_is (s : Scanner) (expected : Char) : Except ParseError Unit :=
  match s.remain.head? with
  | some ch =>
    if ch = expected then .ok ()
    else .error (s.unexpected (String.mk [expected]) (String.mk [ch]))
  | none => .error .Empty

/-- Embeds `Scanner::consume_exact`. -/
def Scanner.consume_exact (expected : Char) (s : Scanner) :
    Except ParseError Unit × Scanner :=
  match s.assert_current_is expected with
  | .error e => (.error e, s)
  | .ok _ =>
    match s.consume 1 with
    | (.error e, s') => (.error e, s')
    | (.ok _, s') => (.ok (), s')

/-- Embeds `Scanner::skip_until`: advance to the first character satisfying `f`;
when no character satisfies `f` the loop falls through and the scanner is
left unchanged. -/
def Scanner.skip_until (f : Char → Bool) (s : Scanner) : Scanner :=
  match find_idx f s.remain with
  | some i => (s.consume i).2
  | none => s

/-- Embeds `Scanner::skip_while`. -/
def Scanner.skip_while (f : Char → Bool) (s : Scanner) : Scanner :=
  s.skip_until (fun x => !f x)

/-- Rust `char::is_whitespace`: the Unicode White_Space property. -/
def rust_is_whitespace (c : Char) : Bool :=
  let n := c.toNat
  (decide (9 ≤ n) && decide (n ≤ 13)) || decide (n = 32) || decide (n = 133) ||
  decide (n = 160) || decide (n = 5760) ||
  (decide (8192 ≤ n) && decide (n ≤ 8202)) || decide (n = 8232) ||
  decide (n = 8233) || decide (n = 8239) || decide (n = 8287) || decide (n = 12288)

/-- Embeds `Scanner::skip_space`. -/
def Scanner.skip_space (s : Scanner) : Scanner :=
  s.skip_while rust_is_whitespace

/-- Embeds `Scanner::till_next_bracket`: consume up to (not including) the next
closing bracket; `Empty` when there is none. -/
def Scanner.till_next_bracket (s : Scanner) : Except ParseError (List Char) × Scanner :=
  match find_idx (fun c => decide (c = ']')) s.remain with
  | some i => s.consume i
  | none => (.error .Empty, s)

/-- Embeds `Scanner::in_bracket`: an opening bracket, the inner parser, a
closing bracket. -/
def Scanner.in_bracket {α : Type} (inner : Scanner → Except ParseError α × Scanner)
    (s : Scanner) : Except ParseError α × Scanner :=
  match Scanner.consume_exact '[' s with
  | (.error e, s') => (.error e, s')
  | (.ok _, s₁) =>
    match inner s₁ with
    | (.error e, s') => (.error e, s')
    | (.ok v, s₂) =>
      match Scanner.consume_exact ']' s₂ with
      | (.error e, s') => (.error e, s')
      | (.ok _, s₃) => (.ok v, s₃)

/-! ## Grammar layer and value model (src/parser/artifacts.rs) -/

/-- Embeds `LogLevel` from src/parser/artifacts.rs. -/
inductive LogLevel where
  | Debug | Info | Warn | Error | Fatal | Unknown
deriving DecidableEq, Repr

/-- Embeds `LogStr`: a quoted span (delimiters included, verbatim) or an
unquoted span. -/
inductive LogStr where
  | Quoted (s : List Char)
  | Unquoted (s : List Char)
deriving DecidableEq, Repr

/-- Embeds `LogFieldRef`: one key=value pair. -/
structure LogFieldRef where
  key : LogStr
  value : LogStr
deriving DecidableEq, Repr

/-- Embeds `FileLineRef`: a source location split at the last colon. -/
structure FileLineRef where
  file : List Char
  line : List Char
deriving DecidableEq, Repr

/-- Embeds `TimeRef`: an uninterpreted time span. -/
structure TimeRef where
  time_str : List Char
deriving DecidableEq, Repr

/-- Embeds `TimeRef::from_str_unchecked`. -/
def TimeRef.from_str_unchecked (s : List Char) : TimeRef :=
  { time_str := s }

/-- Embeds `LogRecordRef`: one parsed line of uniformed log. -/
structure LogRecordRef where
  level : LogLevel
  time : TimeRef
  message : LogStr
  source : Option FileLineRef
  entries : List LogFieldRef
deriving DecidableEq, Repr

/-- Embeds `LogStr::from_str`: an empty span and any span not starting with a
quote are `Unquoted`; a span starting with a quote is `Quoted`. -/
def LogStr.from_str (s : List Char) : Except ParseError LogStr :=
  match s.head? with
  | none => .ok (.Unquoted [])
  | some c => if c = '"' then .ok (.Quoted s) else .ok (.Unquoted s)

/-- Embeds `LogStr::parse_from_sequence`: quoted or unquoted depending on the
next character; `Empty` at end of input. -/
def LogStr.parse_from_sequence (s : Scanner) : Except ParseError LogStr × Scanner :=
  match s.peek_char with
  | some c =>
    match (if c = '"' then s.quoted_string else s.unquoted_string) with
    | (.error e, s') => (.error e, s')
    | (.ok got, s') => (LogStr.from_str got, s')
  | none => (.error .Empty, s)

/-- Modelled from the spec: `Scanner::consume_until` is called by
`LogStr::scan_from_with_need_quote` in src/parser/artifacts.rs but its
definition is absent from src/parser/scanner.rs. Per the spec (section
4.2) it is the alternate stop-predicate variant of `unquoted_string`:
consume up to the first character satisfying the caller-supplied
predicate, or drain the rest of the buffer. -/
def Scanner.consume_until (f : Char → Bool) (s : Scanner) :
    Except ParseError (List Char) × Scanner :=
  match find_idx f s.remain with
  | some i => s.consume i
  | none => s.drain

/-- Embeds `LogStr::scan_from_with_need_quote`: like `parse_from_sequence` but
with a caller-supplied stop predicate for the unquoted case. -/
def LogStr.scan_from_with_need_quote (f : Char → Bool) (s : Scanner) :
    Except ParseError LogStr × Scanner :=
  match s.peek_char with
  | some c =>
    match (if c = '"' then s.quoted_string else Scanner.consume_until f s) with
    | (.error e, s') => (.error e, s')
    | (.ok got, s') => (LogStr.from_str got, s')
  | none => (.error .Empty, s)

/-- The index list built by the `char_indices` loop of
`FileLineRef::from_str`, starting at index `i`: positions of all colons. -/
def colon_positions_from (i : Nat) : List Char → List Nat
  | [] => []
  | c :: t =>
    if c = ':' then i :: colon_positions_from (i + 1) t
    else colon_positions_from (i + 1) t

/-- Embeds `FileLineRef::from_str`: the `<unknown>` sentinel maps to absence;
otherwise split at the last colon (file before, line after, colon
dropped); with no colon the result is absence. -/
def FileLineRef.from_str (s : List Char) : Option FileLineRef :=
  if s = "<unknown>".toList then none
  else
    (colon_positions_from 0 s).getLast?.map (fun i =>
      { file := s.take i, line := s.drop (i + 1) })

/-- Embeds `FileLineRef::scan_from`: `in_bracket(till_next_bracket)` then
`from_str`. -/
def FileLineRef.scan_from (s : Scanner) :
    Except ParseError (Option FileLineRef) × Scanner :=
  match Scanner.in_bracket Scanner.till_next_bracket s with
  | (.error e, s') => (.error e, s')
  | (.ok source, s') => (.ok (FileLineRef.from_str source), s')

/-- Embeds `LogFieldRef::scan_from`: key, exact equals sign, value. -/
def LogFieldRef.scan_from (s : Scanner) : Except ParseError LogFieldRef × Scanner :=
  match LogStr.parse_from_sequence s with
  | (.error e, s') => (.error e, s')
  | (.ok key, s₁) =>
    match Scanner.consume_exact '=' s₁ with
    | (.error e, s') => (.error e, s')
    | (.ok _, s₂) =>
      match LogStr.parse_from_sequence s₂ with
      | (.error e, s') => (.error e, s')
      | (.ok value, s₃) => (.ok { key := key, value := value }, s₃)

/-- Embeds `LogFieldRef::scan_from_with_need_quote`. -/
def LogFieldRef.scan_from_with_need_quote (f : Char → Bool) (s : Scanner) :
    Except ParseError LogFieldRef × Scanner :=
  match LogStr.scan_from_with_need_quote f s with
  | (.error e, s') => (.error e, s')
  | (.ok key, s₁) =>
    match Scanner.consume_exact '=' s₁ with
    | (.error e, s') => (.error e, s')
    | (.ok _, s₂) =>
      match LogStr.scan_from_with_need_quote f s₂ with
      | (.error e, s') => (.error e, s')
      | (.ok value, s₃) => (.ok { key := key, value := value }, s₃)

/-- Embeds `LogFieldRef::parse_from_field`: a bracketed key=value field. -/
def LogFieldRef.parse_from_field (s : Scanner) :
    Except ParseError LogFieldRef × Scanner :=
  Scanner.in_bracket LogFieldRef.scan_from s

/-- Embeds `LogLevel::from_str` (the `FromStr` impl): exact-match lookup with an
`Unknown` fallback, never an error. -/
def LogLevel.from_str (s : List Char) : Except ParseError LogLevel :=
  .ok (if s = "FATAL".toList then .Fatal
    else if s = "ERROR".toList then .Error
    else if s = "WARN".toList then .Warn
    else if s = "INFO".toList then .Info
    else if s = "DEBUG".toList then .Debug
    else .Unknown)

/-- Embeds `LogLevel::scan_from`. -/
def LogLevel.scan_from (s : Scanner) : Except ParseError LogLevel × Scanner :=
  match Scanner.in_bracket Scanner.till_next_bracket s with
  | (.error e, s') => (.error e, s')
  | (.ok field, s') => (LogLevel.from_str field, s')

/-- The trailing-fields loop of `LogRecordRef::scan_from`. `diags` models
the diagnostic side-channel (the `eprintln!` of the Rust code): per-field
errors are appended there and the loop recovers by skipping to the next
closing bracket and consuming it. `fuel` bounds the recursion; every
iteration consumes at least one character, so `remain.length + 1` is
always enough and the fuel-exhaustion branch is unreachable. -/
def scan_fields (fuel : Nat) (entries : List LogFieldRef) (diags : List ParseError)
    (s : Scanner) : Except ParseError (List LogFieldRef × List ParseError) × Scanner :=
  match fuel with
  | 0 => (.error .Empty, s)
  | fuel + 1 =>
    if s.is_done then (.ok (entries, diags), s)
    else
      match LogFieldRef.parse_from_field s with
      | (.error err, s₁) =>
        let s₂ := Scanner.skip_until (fun c => decide (c = ']')) s₁
        match Scanner.consume_exact ']' s₂ with
        | (.error e, s₃) => (.error e, s₃)
        | (.ok _, s₃) => scan_fields fuel entries (diags ++ [err]) s₃
      | (.ok field, s₁) =>
        let s₂ := Scanner.skip_space s₁
        scan_fields fuel (entries ++ [field]) diags s₂

/-- Embeds `LogRecordRef::scan_from`: the fixed prefix time, level, source,
message (each failure there fatal), then the recovering field loop. The
second component of the result is the diagnostic side-channel. -/
def LogRecordRef.scan_from (s : Scanner) :
    Except ParseError (LogRecordRef × List ParseError) × Scanner :=
  match Scanner.in_bracket Scanner.till_next_bracket s with
  | (.error e, s') => (.error e, s')
  | (.ok time_raw, s₁) =>
    let time := TimeRef.from_str_unchecked time_raw
    let s₂ := Scanner.skip_space s₁
    match LogLevel.scan_from s₂ with
    | (.error e, s') => (.error e, s')
    | (.ok level, s₃) =>
      let s₄ := Scanner.skip_space s₃
      match FileLineRef.scan_from s₄ with
      | (.error e, s') => (.error e, s')
      | (.ok source, s₅) =>
        let s₆ := Scanner.skip_space s₅
        match Scanner.in_bracket LogStr.parse_from_sequence s₆ with
        | (.error e, s') => (.error e, s')
        | (.ok message, s₇) =>
          let s₈ := Scanner.skip_space s₇
          match scan_fields (s₈.remain.length + 1) [] [] s₈ with
          | (.error e, s') => (.error e, s')
          | (.ok (entries, diags), s₉) =>
            (.ok ({ level := level, time := time, source := source,
                    message := message, entries := entries }, diags), s₉)

/-- Embeds `with_log_record` with the identity callback: parse one line into a
record; the second component is the diagnostic side-channel of the field
loop. -/
def with_log_record (s : List Char) :
    Except ParseError (LogRecordRef × List ParseError) :=
  (LogRecordRef.scan_from (Scanner.over s)).1

/-- The stop predicate of `with_zap_object`: `char_need_quote` plus
comma and both braces. -/
def zap_stop (c : Char) : Bool :=
  char_need_quote c || decide (c = ',') ||
  decide (c = Char.ofNat 125) || decide (c = Char.ofNat 123)

/-- The loop of `with_zap_object`: on non-first iterations skip
whitespace and require a comma (another field follows) or a closing
brace (return the collected fields); anything else, or end of input, is
fatal. `fuel` bounds the recursion; every recursive call follows a field
parse that consumed at least the equals sign, so `length + 1` fuel is
always enough. -/
def zap_loop (fuel : Nat) (first : Bool) (vec : List LogFieldRef) (s : Scanner) :
    Except ParseError (List LogFieldRef) × Scanner :=
  match fuel with
  | 0 => (.error .Empty, s)
  | fuel + 1 =>
    let sep : Except ParseError (Option (List LogFieldRef)) × Scanner :=
      match first with
      | true => (.ok none, s)
      | false =>
        let s₁ := Scanner.skip_space s
        match s₁.peek_char with
        | some c =>
          if c = ',' then
            match Scanner.consume_exact ',' s₁ with
            | (.error e, s₂) => (.error e, s₂)
            | (.ok _, s₂) => (.ok none, s₂)
          else if c = Char.ofNat 125 then
            match Scanner.consume_exact (Char.ofNat 125) s₁ with
            | (.error e, s₂) => (.error e, s₂)
            | (.ok _, s₂) => (.ok (some vec), s₂)
          else
            (.error (s₁.unexpected (String.mk
              [Char.ofNat 39, ',', Char.ofNat 39, ' ', 'o', 'r', ' ',
               Char.ofNat 39, Char.ofNat 125, Char.ofNat 39]) (String.mk [c])), s₁)
        | none => (.error .Empty, s₁)
    match sep with
    | (.error e, s') => (.error e, s')
    | (.ok (some v), s') => (.ok v, s')
    | (.ok none, s') =>
      match LogFieldRef.scan_from_with_need_quote zap_stop s' with
      | (.error e, s'') => (.error e, s'')
      | (.ok field, s'') => zap_loop fuel false (vec ++ [field]) s''

/-- Embeds `with_zap_object` with the identity callback: a leading opening
brace, then the separator/field loop. -/
def with_zap_object (s : List Char) : Except ParseError (List LogFieldRef) :=
  let sc := Scanner.over s
  match Scanner.consume_exact (Char.ofNat 123) sc with
  | (.error e, _) => .error e
  | (.ok _, sc₁) => (zap_loop (s.length + 1) true [] sc₁).1

/-! ## Serializer (src/json_writer/mod.rs)

Writers are modelled as functions producing the emitted characters. -/

/-- One escaped character of Rust's Debug formatting of a string slice
(the serializer's `ToJSON for &str` writes with the debug format
specifier): double quote and backslash get a backslash, tab, carriage
return and newline their two-character escapes, the remaining control
characters a braced lowercase-hex unicode escape; other characters pass
through (the repository only ever feeds plain printable keys and values
through this path). -/
def rust_escape_debug (c : Char) : List Char :=
  if c = '"' then ['\\', '"']
  else if c = '\\' then ['\\', '\\']
  else if c = '\n' then ['\\', 'n']
  else if c = '\r' then ['\\', 'r']
  else if c = '\t' then ['\\', 't']
  else if decide (c.toNat < 32) || decide (c.toNat = 127) then
    ['\\', 'u', Char.ofNat 123] ++ Nat.toDigits 16 c.toNat ++ [Char.ofNat 125]
  else [c]

/-- Embeds `ToJSON for &str`: a JSON string literal with Rust Debug escaping. -/
def write_str_json (s : List Char) : List Char :=
  '"' :: (s.map rust_escape_debug).flatten ++ ['"']

/-- Embeds `JsonObjectBuilder`: the initial flag suppresses the separator before
the first key; `out` is everything written so far. -/
structure JsonObjectBuilder where
  initial : Bool
  out : List Char
deriving DecidableEq, Repr

/-- Embeds `JsonObjectBuilder::on_writer`: write the opening brace. -/
def JsonObjectBuilder.on_writer (out : List Char) : JsonObjectBuilder :=
  { initial := true, out := out ++ [Char.ofNat 123] }

/-- Embeds `JsonObjectBuilder::write_key`: a comma unless first, the rendered
key, a colon. -/
def JsonObjectBuilder.write_key (b : JsonObjectBuilder) (key : List Char) :
    JsonObjectBuilder :=
  { initial := false,
    out := (if b.initial then b.out else b.out ++ [',']) ++ key ++ [':'] }

/-- Embeds `JsonObjectBuilder::write_field`: key then rendered value. -/
def JsonObjectBuilder.write_field (b : JsonObjectBuilder) (key value : List Char) :
    JsonObjectBuilder :=
  let b' := b.write_key key
  { initial := b'.initial, out := b'.out ++ value }

/-- Embeds `JsonObjectBuilder::end`: the closing brace. -/
def JsonObjectBuilder.end_obj (b : JsonObjectBuilder) : List Char :=
  b.out ++ [Char.ofNat 125]

/-- Embeds `ToJSON for LogStr`: a quoted span verbatim; an unquoted span
wrapped in one pair of quotes with no escaping. -/
def LogStr.write_json : LogStr → List Char
  | .Quoted s => s
  | .Unquoted s => '"' :: s ++ ['"']

/-- Embeds `ToJSON for LogLevel`: the fixed lowercase description, rendered as
a string via the &str writer. -/
def LogLevel.write_json (l : LogLevel) : List Char :=
  write_str_json (match l with
    | .Debug => "debug".toList
    | .Info => "info".toList
    | .Warn => "warn".toList
    | .Error => "error".toList
    | .Fatal => "fatal".toList
    | .Unknown => "<unknown>".toList)

/-- Embeds `ToJSON for FileLineRef`: an object with `file` and `line`. -/
def FileLineRef.write_json (f : FileLineRef) : List Char :=
  (((JsonObjectBuilder.on_writer []).write_field
      (write_str_json "file".toList) (write_str_json f.file)).write_field
      (write_str_json "line".toList) (write_str_json f.line)).end_obj

/-- Embeds `ToJSON for Option<T>` at `FileLineRef`: `null` when absent. -/
def option_file_line_write_json : Option FileLineRef → List Char
  | none => "null".toList
  | some f => f.write_json

/-- Embeds `ToJSON for TimeRef`: the raw time span, written without quotes. -/
def TimeRef.write_json (t : TimeRef) : List Char :=
  t.time_str

/-- Embeds `ToJSON for &[LogFieldRef]`: an object with one member per field, in
sequence order, keys and values rendered by the `LogStr` writer. -/
def fields_write_json (l : List LogFieldRef) : List Char :=
  (l.foldl (fun b e => b.write_field e.key.write_json e.value.write_json)
    (JsonObjectBuilder.on_writer [])).end_obj

/-- Embeds `ToJSON for LogRecordRef`: an object with, in order, message, level,
source, time, fields. -/
def LogRecordRef.write_json (r : LogRecordRef) : List Char :=
  ((((((JsonObjectBuilder.on_writer []).write_field
      (write_str_json "message".toList) r.message.write_json).write_field
      (write_str_json "level".toList) r.level.write_json).write_field
      (write_str_json "source".toList) (option_file_line_write_json r.source)).write_field
      (write_str_json "time".toList) r.time.write_json).write_field
      (write_str_json "fields".toList) (fields_write_json r.entries)).end_obj

/-! ## Specification-side definitions used by the claim statements -/

/-- Comma-joined concatenation of rendered members, the shape of the
object-builder output. -/
def comma_sep : List (List Char) → List Char
  | [] => []
  | [x] => x
  | x :: y :: t => x ++ ',' :: comma_sep (y :: t)

/-- The key/value texts emitted for a field sequence, in order. -/
def fields_pairs (l : List LogFieldRef) : List (List Char × List Char) :=
  l.map (fun e => (e.key.write_json, e.value.write_json))

/-- Follows the spec's words on JSON object semantics: the value a JSON
consumer associates with a key is the one of the last member carrying
that key — later duplicate keys overwrite earlier ones. -/
def json_object_value (pairs : List (List Char × List Char)) (k : List Char) :
    Option (List Char) :=
  pairs.foldl (fun acc p => if p.1 = k then some p.2 else acc) none

/-- Length of the backslash run immediately preceding position `j`. -/
def bs_run_before (l : List Char) (j : Nat) : Nat :=
  ((l.take j).reverse.takeWhile (fun c => decide (c = '\\'))).length

/-- Position `j` holds a closing double quote that is not escaped: the
character is a quote and the run of backslashes immediately before it
has even length. -/
def unescaped_quote_at (l : List Char) (j : Nat) : Prop :=
  l[j]? = some '"' ∧ bs_run_before l j % 2 = 0

instance (l : List Char) (j : Nat) : Decidable (unescaped_quote_at l j) := by
  unfold unescaped_quote_at
  infer_instance

/-! ## Scanner state invariant and basic lemmas -/

/-- Well-formedness of a scanner state: the remainder is exactly the
suffix of the original buffer starting at the offset. -/
def Scanner.Wf (s : Scanner) : Prop :=
  s.remain = s.target.drop s.offset ∧ s.offset + s.remain.length = s.target.length

instance (s : Scanner) : Decidable s.Wf := by
  unfold Scanner.Wf; infer_instance

theorem Scanner.over_wf (l : List Char) : (Scanner.over l).Wf := by
  constructor <;> simp [Scanner.over]

theorem consume_of_le {s : Scanner} {n : Nat} (h : s.offset + n ≤ s.target.length) :
    s.consume n = (.ok (s.remain.take n),
      { target := s.target, remain := s.remain.drop n, offset := s.offset + n }) := by
  unfold Scanner.consume
  rw [if_neg (by omega)]

theorem consume_wf {s : Scanner} (hw : s.Wf) (n : Nat) :
    (s.consume n).2.Wf ∧ (s.consume n).2.target = s.target ∧
      s.offset ≤ (s.consume n).2.offset ∧
      (∀ v s', s.consume n = (.ok v, s') →
        s'.offset = s.offset + n ∧ v.length = n ∧ v = s.remain.take n) := by
  obtain ⟨hr, hl⟩ := hw
  by_cases h : s.target.length < s.offset + n
  · have heq : s.consume n = (.error .Empty, s) := by
      unfold Scanner.consume; rw [if_pos h]
    rw [heq]
    exact ⟨⟨hr, hl⟩, rfl, Nat.le_refl _, by intro v s' hvs; cases hvs⟩
  · have heq := consume_of_le (s := s) (n := n) (by omega)
    rw [heq]
    dsimp only
    refine ⟨⟨?_, ?_⟩, rfl, by omega, ?_⟩
    · rw [hr, List.drop_drop, Nat.add_comm]
    · simp only [List.length_drop]; omega
    · intro v s' hvs
      cases hvs
      refine ⟨rfl, ?_, rfl⟩
      rw [List.length_take]
      omega

theorem consume_wf_state {s : Scanner} (hw : s.Wf) (n : Nat) : (s.consume n).2.Wf :=
  (consume_wf hw n).1

theorem drain_wf {s : Scanner} (hw : s.Wf) :
    (s.drain).2.Wf ∧ (s.drain).2.target = s.target ∧ s.offset ≤ (s.drain).2.offset := by
  have h := consume_wf hw (s.target.length - s.offset)
  exact ⟨h.1, h.2.1, h.2.2.1⟩

theorem find_idx_some {p : Char → Bool} :
    ∀ {l : List Char} {i : Nat}, find_idx p l = some i →
      i < l.length ∧ (∀ c ∈ l.take i, p c = false) ∧
      ∃ c, l[i]? = some c ∧ p c = true := by
  intro l
  induction l with
  | nil => intro i h; cases h
  | cons c t ih =>
    intro i h
    unfold find_idx at h
    by_cases hc : p c
    · rw [if_pos hc] at h
      cases h
      exact ⟨Nat.succ_le_succ (Nat.zero_le _), by simp, c, by simp, hc⟩
    · rw [if_neg hc] at h
      cases ht : find_idx p t with
      | none => rw [ht] at h; cases h
      | some j =>
        rw [ht] at h
        simp only [Option.map_some', Option.some.injEq] at h
        subst h
        obtain ⟨hlt, htake, c', hc', hp⟩ := ih ht
        refine ⟨by simp only [List.length_cons]; omega, ?_, c', by simpa using hc', hp⟩
        intro x hx
        simp only [List.take_succ_cons, List.mem_cons] at hx
        rcases hx with rfl | hx
        · simpa using hc
        · exact htake x hx

theorem find_idx_none {p : Char → Bool} :
    ∀ {l : List Char}, find_idx p l = none → ∀ c ∈ l, p c = false := by
  intro l
  induction l with
  | nil => intro _ c hc; cases hc
  | cons c t ih =>
    intro h x hx
    unfold find_idx at h
    by_cases hc : p c
    · rw [if_pos hc] at h; cases h
    · rw [if_neg hc] at h
      rcases List.mem_cons.mp hx with rfl | hx
      · simpa using hc
      · cases ht : find_idx p t with
        | none => exact ih ht x hx
        | some j => rw [ht] at h; cases h

theorem find_idx_none_of_all {p : Char → Bool} :
    ∀ {l : List Char}, (∀ c ∈ l, p c = false) → find_idx p l = none := by
  intro l
  induction l with
  | nil => intro _; rfl
  | cons c t ih =>
    intro h
    unfold find_idx
    rw [if_neg (by simpa using h c (by simp)), ih (fun x hx => h x (by simp [hx]))]
    rfl

theorem skip_until_wf {s : Scanner} (hw : s.Wf) (f : Char → Bool) :
    (s.skip_until f).Wf ∧ (s.skip_until f).target = s.target ∧
      s.offset ≤ (s.skip_until f).offset := by
  unfold Scanner.skip_until
  cases h : find_idx f s.remain with
  | some i => exact ⟨(consume_wf hw i).1, (consume_wf hw i).2.1, (consume_wf hw i).2.2.1⟩
  | none => exact ⟨hw, rfl, Nat.le_refl _⟩

theorem skip_while_wf {s : Scanner} (hw : s.Wf) (f : Char → Bool) :
    (s.skip_while f).Wf ∧ (s.skip_while f).target = s.target ∧
      s.offset ≤ (s.skip_while f).offset :=
  skip_until_wf hw _

theorem skip_space_wf {s : Scanner} (hw : s.Wf) :
    (s.skip_space).Wf ∧ (s.skip_space).target = s.target ∧
      s.offset ≤ (s.skip_space).offset :=
  skip_while_wf hw _

theorem consume_exact_wf {s : Scanner} (hw : s.Wf) (c : Char) :
    (Scanner.consume_exact c s).2.Wf ∧ (Scanner.consume_exact c s).2.target = s.target ∧
      s.offset ≤ (Scanner.consume_exact c s).2.offset := by
  have hc := consume_wf hw 1
  unfold Scanner.consume_exact
  split
  · exact ⟨hw, rfl, Nat.le_refl _⟩
  · split <;> rename_i heq <;> rw [heq] at hc <;> exact ⟨hc.1, hc.2.1, hc.2.2.1⟩

/-- Success shape of consume_exact when the next character matches. -/
theorem consume_exact_head {s : Scanner} (hw : s.Wf) {c : Char}
    (h : s.remain.head? = some c) :
    Scanner.consume_exact c s =
      (.ok (), { target := s.target, remain := s.remain.drop 1, offset := s.offset + 1 }) := by
  have hlen : 1 ≤ s.remain.length := by
    cases hr : s.remain with
    | nil => rw [hr] at h; cases h
    | cons a t => simp [hr]
  have hle : s.offset + 1 ≤ s.target.length := by
    have := hw.2; omega
  have ha : s.assert_current_is c = .ok () := by
    unfold Scanner.assert_current_is
    rw [h]
    simp
  unfold Scanner.consume_exact
  rw [ha, consume_of_le hle]

theorem unquoted_string_wf {s : Scanner} (hw : s.Wf) :
    (s.unquoted_string).2.Wf ∧ (s.unquoted_string).2.target = s.target ∧
      s.offset ≤ (s.unquoted_string).2.offset := by
  unfold Scanner.unquoted_string
  cases h : find_idx char_need_quote s.remain with
  | some i => exact ⟨(consume_wf hw i).1, (consume_wf hw i).2.1, (consume_wf hw i).2.2.1⟩
  | none => exact drain_wf hw

theorem quoted_string_wf {s : Scanner} (hw : s.Wf) :
    (s.quoted_string).2.Wf ∧ (s.quoted_string).2.target = s.target ∧
      s.offset ≤ (s.quoted_string).2.offset := by
  unfold Scanner.quoted_string
  cases h : quoted_scan true s.remain with
  | some n => exact ⟨(consume_wf hw n).1, (consume_wf hw n).2.1, (consume_wf hw n).2.2.1⟩
  | none => exact ⟨hw, rfl, Nat.le_refl _⟩

theorem till_next_bracket_wf {s : Scanner} (hw : s.Wf) :
    (s.till_next_bracket).2.Wf ∧ (s.till_next_bracket).2.target = s.target ∧
      s.offset ≤ (s.till_next_bracket).2.offset := by
  unfold Scanner.till_next_bracket
  cases h : find_idx (fun c => decide (c = ']')) s.remain with
  | some i => exact ⟨(consume_wf hw i).1, (consume_wf hw i).2.1, (consume_wf hw i).2.2.1⟩
  | none => exact ⟨hw, rfl, Nat.le_refl _⟩

theorem in_bracket_wf {α : Type} {inner : Scanner → Except ParseError α × Scanner}
    (hinner : ∀ s : Scanner, s.Wf →
      (inner s).2.Wf ∧ (inner s).2.target = s.target ∧ s.offset ≤ (inner s).2.offset)
    {s : Scanner} (hw : s.Wf) :
    (Scanner.in_bracket inner s).2.Wf ∧ (Scanner.in_bracket inner s).2.target = s.target ∧
      s.offset ≤ (Scanner.in_bracket inner s).2.offset := by
  have h₁ := consume_exact_wf hw '['
  unfold Scanner.in_bracket
  split <;> rename_i heq₁ <;> rw [heq₁] at h₁
  · exact h₁
  · have h₂ := hinner _ h₁.1
    split <;> rename_i heq₂ <;> rw [heq₂] at h₂
    · exact ⟨h₂.1, h₂.2.1.trans h₁.2.1, h₁.2.2.trans h₂.2.2⟩
    · have h₃ := consume_exact_wf h₂.1 ']'
      split <;> rename_i heq₃ <;> rw [heq₃] at h₃ <;>
        exact ⟨h₃.1, (h₃.2.1.trans h₂.2.1).trans h₁.2.1,
          (h₁.2.2.trans h₂.2.2).trans h₃.2.2⟩

theorem consume_ok_val {s : Scanner} {n : Nat} {v : List Char} {s' : Scanner}
    (h : s.consume n = (.ok v, s')) : v = s.remain.take n := by
  unfold Scanner.consume at h
  by_cases hb : s.target.length < s.offset + n
  · rw [if_pos hb] at h; cases h
  · rw [if_neg hb] at h
    cases h
    rfl

/-! ## Claim theorems -/

/-- C10: after any scanner operation (consume, consume_exact,
unquoted_string, quoted_string, skip_until, skip_while,
till_next_bracket, in_bracket — the latter for any inner parser that
itself preserves the invariant), the remaining input is exactly the
suffix of the original buffer starting at the current offset (and the
offset plus the remainder length equals the buffer length), the buffer
itself never changes, and the offset never decreases; a successful
consume advances the offset by exactly the length of the returned
span. -/
theorem c10_scanner_cursor_invariant :
    (∀ (s : Scanner) (n : Nat), s.Wf →
      (s.consume n).2.Wf ∧ (s.consume n).2.target = s.target ∧
        s.offset ≤ (s.consume n).2.offset ∧
        ∀ v s', s.consume n = (.ok v, s') → s'.offset = s.offset + n ∧ v.length = n)
    ∧ (∀ (s : Scanner) (c : Char), s.Wf →
        (Scanner.consume_exact c s).2.Wf ∧
          (Scanner.consume_exact c s).2.target = s.target ∧
          s.offset ≤ (Scanner.consume_exact c s).2.offset)
    ∧ (∀ s : Scanner, s.Wf →
        s.unquoted_string.2.Wf ∧ s.unquoted_string.2.target = s.target ∧
          s.offset ≤ s.unquoted_string.2.offset)
    ∧ (∀ s : Scanner, s.Wf →
        s.quoted_string.2.Wf ∧ s.quoted_string.2.target = s.target ∧
          s.offset ≤ s.quoted_string.2.offset)
    ∧ (∀ (s : Scanner) (f : Char → Bool), s.Wf →
        (s.skip_until f).Wf ∧ (s.skip_until f).target = s.target ∧
          s.offset ≤ (s.skip_until f).offset)
    ∧ (∀ (s : Scanner) (f : Char → Bool), s.Wf →
        (s.skip_while f).Wf ∧ (s.skip_while f).target = s.target ∧
          s.offset ≤ (s.skip_while f).offset)
    ∧ (∀ s : Scanner, s.Wf →
        s.till_next_bracket.2.Wf ∧ s.till_next_bracket.2.target = s.target ∧
          s.offset ≤ s.till_next_bracket.2.offset)
    ∧ (∀ (α : Type) (inner : Scanner → Except ParseError α × Scanner),
        (∀ s : Scanner, s.Wf → (inner s).2.Wf ∧ (inner s).2.target = s.target ∧
          s.offset ≤ (inner s).2.offset) →
        ∀ s : Scanner, s.Wf →
          (Scanner.in_bracket inner s).2.Wf ∧
            (Scanner.in_bracket inner s).2.target = s.target ∧
            s.offset ≤ (Scanner.in_bracket inner s).2.offset) := by
  refine ⟨?_, ?_, ?_, ?_, ?_, ?_, ?_, ?_⟩
  · intro s n hw
    have h := consume_wf hw n
    exact ⟨h.1, h.2.1, h.2.2.1, fun v s' hv => ⟨(h.2.2.2 v s' hv).1, (h.2.2.2 v s' hv).2.1⟩⟩
  · intro s c hw
    exact consume_exact_wf hw c
  · intro s hw
    exact unquoted_string_wf hw
  · intro s hw
    exact quoted_string_wf hw
  · intro s f hw
    exact skip_until_wf hw f
  · intro s f hw
    exact skip_while_wf hw f
  · intro s hw
    exact till_next_bracket_wf hw
  · intro α inner hinner s hw
    exact in_bracket_wf hinner hw

/-- Witness for C10 at a concrete scanner and consume count. -/
theorem c10_witness :
    ((Scanner.over ['a', 'b']).consume 1).2.Wf ∧
      ((Scanner.over ['a', 'b']).consume 1).2.target = ['a', 'b'] :=
  ⟨(c10_scanner_cursor_invariant.1 (Scanner.over ['a', 'b']) 1 (by decide)).1,
   (c10_scanner_cursor_invariant.1 (Scanner.over ['a', 'b']) 1 (by decide)).2.1⟩

theorem takeWhile_append_stop {p : Char → Bool} {c : Char} (hc : p c = false) :
    ∀ (A B : List Char), (A ++ c :: B).takeWhile p = A.takeWhile p := by
  intro A B
  induction A with
  | nil => simp [List.takeWhile_cons, hc]
  | cons a A ih =>
    by_cases ha : p a
    · simp [List.takeWhile_cons, ha, ih]
    · simp [List.takeWhile_cons, ha]

theorem find_idx_neg_takeWhile {p : Char → Bool} :
    ∀ l : List Char, (∃ c ∈ l, p c = false) →
      find_idx (fun x => !p x) l = some (l.takeWhile p).length := by
  intro l
  induction l with
  | nil => rintro ⟨c, hc, -⟩; cases hc
  | cons a t ih =>
    rintro ⟨c, hc, hpc⟩
    unfold find_idx
    by_cases ha : p a
    · have hct : c ∈ t := by
        rcases List.mem_cons.mp hc with rfl | h
        · rw [ha] at hpc; cases hpc
        · exact h
      rw [if_neg (by simp [ha]), ih ⟨c, hct, hpc⟩]
      simp [List.takeWhile_cons, ha]
    · rw [if_pos (by simp [ha])]
      simp [List.takeWhile_cons, ha]

theorem drop_takeWhile_eq_dropWhile {p : Char → Bool} :
    ∀ l : List Char, l.drop (l.takeWhile p).length = l.dropWhile p := by
  intro l
  induction l with
  | nil => rfl
  | cons a t ih =>
    by_cases ha : p a
    · simp [List.takeWhile_cons, List.dropWhile_cons, ha, ih]
    · simp [List.takeWhile_cons, List.dropWhile_cons, ha]

/-- C9 counterexample: when every remaining character satisfies the
predicate, the Rust loop of skip_until falls through without consuming,
so skip_while leaves the scanner untouched instead of removing the
maximal run — here the whole remainder satisfies the predicate, the
claim predicts an empty remainder, and the actual remainder is the
untouched input. -/
theorem c9_counterexample :
    (Scanner.skip_while (fun c => decide (c = 'a')) (Scanner.over ['a', 'a', 'a'])).remain
      = ['a', 'a', 'a']
    ∧ (Scanner.over ['a', 'a', 'a']).remain.dropWhile (fun c => decide (c = 'a')) = [] := by
  decide

/-- C9 (amended): skip_while(pred) has no failure mode; when some
remaining character fails the predicate it advances past exactly the
maximal satisfying prefix (the remainder becomes the dropWhile of the old
remainder and the offset grows by the prefix length); when every
remaining character satisfies the predicate (including the empty
remainder) the scanner is left unchanged; and skip_space is the
whitespace instance of skip_while. -/
theorem c9_skip_while_spec (s : Scanner) (p : Char → Bool) (hw : s.Wf) :
    ((∃ c ∈ s.remain, p c = false) →
      Scanner.skip_while p s =
        { target := s.target, remain := s.remain.dropWhile p,
          offset := s.offset + (s.remain.takeWhile p).length })
    ∧ ((∀ c ∈ s.remain, p c = true) → Scanner.skip_while p s = s)
    ∧ Scanner.skip_space s = Scanner.skip_while rust_is_whitespace s := by
  refine ⟨?_, ?_, rfl⟩
  · intro hex
    unfold Scanner.skip_while Scanner.skip_until
    rw [find_idx_neg_takeWhile s.remain hex]
    dsimp only
    have hle : s.offset + (s.remain.takeWhile p).length ≤ s.target.length := by
      have h1 := (List.takeWhile_sublist (l := s.remain) (p := p)).length_le
      have h2 := hw.2
      omega
    rw [consume_of_le hle]
    rw [drop_takeWhile_eq_dropWhile]
  · intro hall
    unfold Scanner.skip_while Scanner.skip_until
    rw [find_idx_none_of_all (fun c hc => by simp [hall c hc])]

/-- Witness for C9 at a concrete scanner and predicate. -/
theorem c9_witness :
    Scanner.skip_while (fun c => decide (c = 'a')) (Scanner.over ['a', 'b']) =
      { target := ['a', 'b'], remain := ['b'], offset := 1 } := by
  have h := (c9_skip_while_spec (Scanner.over ['a', 'b'])
    (fun c => decide (c = 'a')) (by decide)).1 (by decide)
  rw [h]
  decide

/-- C3: a Quoted log string produced by a parse serializes to exactly
its captured span, byte for byte, original quote characters included. -/
theorem c3_quoted_write_verbatim (s s' : Scanner) (v : List Char)
    (h : LogStr.parse_from_sequence s = (.ok (.Quoted v), s')) :
    LogStr.write_json (.Quoted v) = v := rfl

/-- Witness for C3 at a concrete parsed quoted string. -/
theorem c3_witness :
    LogStr.parse_from_sequence (Scanner.over ['"', 'a', '"']) =
      (.ok (.Quoted ['"', 'a', '"']),
        { target := ['"', 'a', '"'], remain := [], offset := 3 })
    ∧ LogStr.write_json (.Quoted ['"', 'a', '"']) = ['"', 'a', '"'] :=
  ⟨by decide,
   c3_quoted_write_verbatim (Scanner.over ['"', 'a', '"'])
     { target := ['"', 'a', '"'], remain := [], offset := 3 }
     ['"', 'a', '"'] (by decide)⟩

/-- C5: every token produced by unquoted_string is free of the
needs-quote stop set; serializing an Unquoted span writes exactly one
opening quote, the raw span with no escaping, and one closing quote; and
on an input that does not start with a quote and contains no stop
character, LogStr scanning returns Unquoted holding the full token,
which therefore serializes wrapped in exactly one pair of quotes. -/
theorem c5_unquoted_stop_set :
    (∀ (s : Scanner) (v : List Char) (s' : Scanner),
        s.unquoted_string = (.ok v, s') → ∀ c ∈ v, char_need_quote c = false)
    ∧ (∀ v : List Char, LogStr.write_json (.Unquoted v) = '"' :: v ++ ['"'])
    ∧ (∀ (l : List Char) (c : Char), l.head? = some c → c ≠ '"' →
        (∀ ch ∈ l, char_need_quote ch = false) →
        LogStr.parse_from_sequence (Scanner.over l) =
          (.ok (.Unquoted l), { target := l, remain := [], offset := l.length })) := by
  refine ⟨?_, fun v => rfl, ?_⟩
  · intro s v s' h c hc
    unfold Scanner.unquoted_string at h
    cases hf : find_idx char_need_quote s.remain with
    | some i =>
      rw [hf] at h
      have hv := consume_ok_val h
      subst hv
      exact (find_idx_some hf).2.1 c hc
    | none =>
      rw [hf] at h
      have hv := consume_ok_val h
      subst hv
      exact find_idx_none hf c (List.take_subset _ _ hc)
  · intro l c hh hq hall
    have hfi : find_idx char_need_quote l = none := find_idx_none_of_all hall
    have hdrain : (Scanner.over l).unquoted_string =
        (.ok l, { target := l, remain := [], offset := l.length }) := by
      unfold Scanner.unquoted_string Scanner.drain
      show (match find_idx char_need_quote l with
        | some i => (Scanner.over l).consume i
        | none => (Scanner.over l).consume ((Scanner.over l).target.length -
            (Scanner.over l).offset)) = _
      rw [hfi]
      show (Scanner.over l).consume (l.length - 0) = _
      rw [consume_of_le (by simp [Scanner.over])]
      simp [Scanner.over]
    unfold LogStr.parse_from_sequence
    show (match (Scanner.over l).peek_char with
      | some c => _
      | none => _) = _
    rw [show (Scanner.over l).peek_char = some c from hh]
    simp only [if_neg hq, hdrain]
    unfold LogStr.from_str
    rw [hh]
    dsimp only
    rw [if_neg hq]

/-- Witness for C5 at a concrete scanner, token and input. -/
theorem c5_witness :
    ((Scanner.over ['x', 'y']).unquoted_string =
        (.ok ['x', 'y'], { target := ['x', 'y'], remain := [], offset := 2 }) →
      char_need_quote 'x' = false)
    ∧ LogStr.write_json (.Unquoted ['x', 'y']) = '"' :: ['x', 'y'] ++ ['"']
    ∧ LogStr.parse_from_sequence (Scanner.over ['x', 'y']) =
        (.ok (.Unquoted ['x', 'y']), { target := ['x', 'y'], remain := [], offset := 2 }) :=
  ⟨fun h => c5_unquoted_stop_set.1 (Scanner.over ['x', 'y']) ['x', 'y'] _ h 'x' (by decide),
   c5_unquoted_stop_set.2.1 ['x', 'y'],
   c5_unquoted_stop_set.2.2 ['x', 'y'] 'x' (by decide) (by decide) (by decide)⟩

theorem getLast?_cons_of_ne_nil {α : Type} (a : α) {l : List α} (h : l ≠ []) :
    (a :: l).getLast? = l.getLast? := by
  obtain ⟨x, xs, rfl⟩ := List.exists_cons_of_ne_nil h
  rw [List.getLast?_cons_cons]

theorem colon_positions_from_nil_of_no_colon :
    ∀ (t : List Char) (i : Nat), (∀ m : Nat, t[m]? ≠ some ':') →
      colon_positions_from i t = [] := by
  intro t
  induction t with
  | nil => intro i _; rfl
  | cons c t ih =>
    intro i h
    have hc : c ≠ ':' := by
      intro hc
      exact h 0 (by simp [hc])
    unfold colon_positions_from
    rw [if_neg hc]
    exact ih (i + 1) (fun m => by simpa using h (m + 1))

theorem colon_positions_from_getLast :
    ∀ (t : List Char) (j : Nat), t[j]? = some ':' → (∀ m, j < m → t[m]? ≠ some ':') →
      ∀ i, (colon_positions_from i t).getLast? = some (i + j) := by
  intro t
  induction t with
  | nil => intro j hj; cases hj
  | cons c t ih =>
    intro j hj hafter i
    cases j with
    | zero =>
      have hc : c = ':' := by simpa using hj
      have hrest : colon_positions_from (i + 1) t = [] := by
        refine colon_positions_from_nil_of_no_colon t (i + 1) ?_
        intro m
        simpa using hafter (m + 1) (Nat.succ_pos m)
      unfold colon_positions_from
      rw [if_pos hc, hrest]
      rfl
    | succ j =>
      have hj' : t[j]? = some ':' := by simpa using hj
      have hafter' : ∀ m, j < m → t[m]? ≠ some ':' := by
        intro m hm
        simpa using hafter (m + 1) (by omega)
      have IH := ih j hj' hafter' (i + 1)
      have hne : colon_positions_from (i + 1) t ≠ [] := by
        intro h0
        rw [h0] at IH
        cases IH
      have harith : (i + 1) + j = i + (j + 1) := by omega
      unfold colon_positions_from
      by_cases hc : c = ':'
      · rw [if_pos hc, getLast?_cons_of_ne_nil i hne, IH, harith]
      · rw [if_neg hc, IH, harith]

/-- C6: FileLineRef parsing maps the sentinel to absence, maps any string
with at least one colon to the split at its last colon (file before,
line after, colon excluded), and maps any colon-free string to absence
without error. -/
theorem c6_file_line_ref_spec :
    (FileLineRef.from_str "<unknown>".toList = none)
    ∧ (∀ (l : List Char) (i : Nat), l[i]? = some ':' →
        (∀ j, i < j → l[j]? ≠ some ':') →
        FileLineRef.from_str l = some { file := l.take i, line := l.drop (i + 1) })
    ∧ (∀ l : List Char, (∀ c ∈ l, c ≠ ':') → FileLineRef.from_str l = none) := by
  refine ⟨by decide, ?_, ?_⟩
  · intro l i hi hafter
    have hne : l ≠ "<unknown>".toList := by
      intro he
      subst he
      have : (':' : Char) ∈ "<unknown>".toList := List.getElem?_mem hi
      revert this
      decide
    unfold FileLineRef.from_str
    rw [if_neg hne, colon_positions_from_getLast l i hi hafter 0]
    simp
  · intro l hall
    have hnone : ∀ m : Nat, l[m]? ≠ some ':' := by
      intro m hm
      exact hall ':' (List.getElem?_mem hm) rfl
    unfold FileLineRef.from_str
    by_cases hu : l = "<unknown>".toList
    · rw [if_pos hu]
    · rw [if_neg hu, colon_positions_from_nil_of_no_colon l 0 hnone]
      rfl

/-- Witness for C6 at the concrete source location a/b.rs:42. -/
theorem c6_witness :
    FileLineRef.from_str "a/b.rs:42".toList =
      some { file := "a/b.rs".toList, line := "42".toList } := by
  have hafter : ∀ j, 6 < j → ("a/b.rs:42".toList)[j]? ≠ some ':' := by
    intro j hj h
    have hlt : j < 9 := by
      by_contra hge
      rw [List.getElem?_eq_none (by simp; omega)] at h
      cases h
    interval_cases j <;> revert h <;> decide
  have h := c6_file_line_ref_spec.2.1 "a/b.rs:42".toList 6 (by decide) hafter
  rw [h]
  decide

/-- C1: on the end-to-end example line the parse succeeds exactly as the
claim states (level Info, source src/main.rs:10, quoted message, fields
a=b and quoted c d=1), but the serializer writes the time value as a raw
span without surrounding double quotes, so the produced text differs
from the claimed JSON precisely at the time member. -/
theorem c1_time_written_unquoted :
    with_log_record
        "[2021-01-01T00:00:00] [INFO] [src/main.rs:10] [\"hello world\"] [a=b] [\"c d\"=1]".toList
      = .ok ({ level := .Info,
               time := { time_str := "2021-01-01T00:00:00".toList },
               message := .Quoted "\"hello world\"".toList,
               source := some { file := "src/main.rs".toList, line := "10".toList },
               entries := [{ key := .Unquoted ['a'], value := .Unquoted ['b'] },
                           { key := .Quoted "\"c d\"".toList, value := .Unquoted ['1'] }] },
             [])
    ∧ LogRecordRef.write_json
        { level := .Info,
          time := { time_str := "2021-01-01T00:00:00".toList },
          message := .Quoted "\"hello world\"".toList,
          source := some { file := "src/main.rs".toList, line := "10".toList },
          entries := [{ key := .Unquoted ['a'], value := .Unquoted ['b'] },
                      { key := .Quoted "\"c d\"".toList, value := .Unquoted ['1'] }] }
      = "\x7b\"message\":\"hello world\",\"level\":\"info\",\"source\":\x7b\"file\":\"src/main.rs\",\"line\":\"10\"\x7d,\"time\":2021-01-01T00:00:00,\"fields\":\x7b\"a\":\"b\",\"c d\":\"1\"\x7d\x7d".toList
    ∧ "\x7b\"message\":\"hello world\",\"level\":\"info\",\"source\":\x7b\"file\":\"src/main.rs\",\"line\":\"10\"\x7d,\"time\":2021-01-01T00:00:00,\"fields\":\x7b\"a\":\"b\",\"c d\":\"1\"\x7d\x7d".toList
      ≠ "\x7b\"message\":\"hello world\",\"level\":\"info\",\"source\":\x7b\"file\":\"src/main.rs\",\"line\":\"10\"\x7d,\"time\":\"2021-01-01T00:00:00\",\"fields\":\x7b\"a\":\"b\",\"c d\":\"1\"\x7d\x7d".toList := by
  refine ⟨by decide, by decide, by decide⟩

/-- C2: on a line whose fifth bracketed group is a malformed field
(missing the equals sign) followed by a space and a valid field, the
scan still succeeds and both failures land only on the diagnostic
side-channel (two entries there), but the recovery path skips the
whitespace handling, triggers a second recovery on the space before the
valid field, and swallows it: the resulting record has an empty field
list instead of containing the later valid field a=b. -/
theorem c2_recovery_drops_valid_field :
    (with_log_record "[2021-01-01T00:00:00] [INFO] [<unknown>] [msg] [x] [a=b]".toList).map
        (fun p => (p.1.entries, p.2.length))
      = .ok ([], 2) := by
  decide

theorem foldl_write_field (l : List LogFieldRef) (out : List Char) :
    l.foldl (fun b e => b.write_field e.key.write_json e.value.write_json)
      { initial := false, out := out } =
    ({ initial := false,
       out := out ++
        (l.map (fun e => ',' :: e.key.write_json ++ ':' :: e.value.write_json)).flatten } :
      JsonObjectBuilder) := by
  induction l generalizing out with
  | nil => simp
  | cons e t ih =>
    have hstep : (JsonObjectBuilder.write_field { initial := false, out := out }
        e.key.write_json e.value.write_json) =
        { initial := false,
          out := out ++ ',' :: e.key.write_json ++ ':' :: e.value.write_json } := by
      simp [JsonObjectBuilder.write_field, JsonObjectBuilder.write_key]
    rw [List.foldl_cons, hstep, ih]
    simp [List.append_assoc]

theorem comma_sep_cons (x : List Char) (xs : List (List Char)) :
    comma_sep (x :: xs) = x ++ (xs.map (fun y => ',' :: y)).flatten := by
  induction xs generalizing x with
  | nil => simp [comma_sep]
  | cons y t ih =>
    rw [show comma_sep (x :: y :: t) = x ++ ',' :: comma_sep (y :: t) from rfl, ih]
    simp

theorem fields_write_json_eq (l : List LogFieldRef) :
    fields_write_json l =
      Char.ofNat 123 ::
        comma_sep (l.map (fun e => e.key.write_json ++ ':' :: e.value.write_json))
      ++ [Char.ofNat 125] := by
  cases l with
  | nil => rfl
  | cons e t =>
    unfold fields_write_json
    have hstep : (JsonObjectBuilder.write_field (JsonObjectBuilder.on_writer [])
        e.key.write_json e.value.write_json) =
        { initial := false,
          out := Char.ofNat 123 :: (e.key.write_json ++ ':' :: e.value.write_json) } := by
      simp [JsonObjectBuilder.on_writer, JsonObjectBuilder.write_field,
        JsonObjectBuilder.write_key]
    rw [List.foldl_cons, hstep, foldl_write_field, List.map_cons, comma_sep_cons]
    simp [JsonObjectBuilder.end_obj, List.append_assoc, Function.comp_def]

theorem json_object_foldl_const {k : List Char} :
    ∀ (l : List (List Char × List Char)) (acc : Option (List Char)),
      (∀ p ∈ l, p.1 ≠ k) →
      l.foldl (fun acc p => if p.1 = k then some p.2 else acc) acc = acc := by
  intro l
  induction l with
  | nil => intro acc _; rfl
  | cons p t ih =>
    intro acc h
    rw [List.foldl_cons, if_neg (h p (by simp))]
    exact ih acc (fun q hq => h q (by simp [hq]))

theorem json_object_value_last (l₁ l₂ : List (List Char × List Char)) (k v : List Char)
    (h : ∀ p ∈ l₂, p.1 ≠ k) :
    json_object_value (l₁ ++ (k, v) :: l₂) k = some v := by
  unfold json_object_value
  rw [List.foldl_append, List.foldl_cons, if_pos rfl]
  exact json_object_foldl_const l₂ (some v) h

/-- C8: a serialized record is one object whose keys appear in the fixed
order message, level, source, time, fields; the fields member is itself
an object (opening brace, comma-joined key:value members in input order,
closing brace), not an array; parsing preserves duplicate field keys
positionally (last conjunct, on a concrete duplicate-key line); and
under JSON object semantics a later duplicate key overwrites an earlier
one — the value associated with the key of a field whose key text does
not recur later is that field's value. -/
theorem c8_record_json_shape (r : LogRecordRef) (l₁ l₂ : List LogFieldRef)
    (e : LogFieldRef) (hdup : r.entries = l₁ ++ e :: l₂)
    (hlast : ∀ e' ∈ l₂, e'.key.write_json ≠ e.key.write_json) :
    r.write_json =
      Char.ofNat 123 ::
        (write_str_json "message".toList ++ ':' :: r.message.write_json
          ++ ',' :: write_str_json "level".toList ++ ':' :: r.level.write_json
          ++ ',' :: write_str_json "source".toList
            ++ ':' :: option_file_line_write_json r.source
          ++ ',' :: write_str_json "time".toList ++ ':' :: r.time.write_json
          ++ ',' :: write_str_json "fields".toList ++ ':' :: fields_write_json r.entries)
        ++ [Char.ofNat 125]
    ∧ fields_write_json r.entries =
        Char.ofNat 123 ::
          comma_sep (r.entries.map (fun f => f.key.write_json ++ ':' :: f.value.write_json))
        ++ [Char.ofNat 125]
    ∧ json_object_value (fields_pairs r.entries) e.key.write_json
        = some e.value.write_json
    ∧ (with_log_record "[t] [INFO] [<unknown>] [m] [a=1] [a=2]".toList).map
        (fun p => p.1.entries)
      = .ok [{ key := .Unquoted ['a'], value := .Unquoted ['1'] },
             { key := .Unquoted ['a'], value := .Unquoted ['2'] }] := by
  refine ⟨?_, fields_write_json_eq r.entries, ?_, by decide⟩
  · simp [LogRecordRef.write_json, JsonObjectBuilder.on_writer,
      JsonObjectBuilder.write_field, JsonObjectBuilder.write_key,
      JsonObjectBuilder.end_obj, List.append_assoc]
  · rw [hdup]
    unfold fields_pairs
    rw [List.map_append, List.map_cons]
    refine json_object_value_last _ _ _ _ ?_
    intro p hp
    obtain ⟨e', he', rfl⟩ := List.mem_map.mp hp
    exact hlast e' he'

/-- Witness for C8 at a concrete record with a duplicated field key. -/
theorem c8_witness :
    json_object_value
      (fields_pairs [{ key := .Unquoted ['a'], value := .Unquoted ['1'] },
                     { key := .Unquoted ['a'], value := .Unquoted ['2'] }])
      (LogStr.write_json (.Unquoted ['a']))
      = some (LogStr.write_json (.Unquoted ['2'])) :=
  (c8_record_json_shape
    { level := .Info, time := { time_str := ['t'] }, message := .Unquoted ['m'],
      source := none,
      entries := [{ key := .Unquoted ['a'], value := .Unquoted ['1'] },
                  { key := .Unquoted ['a'], value := .Unquoted ['2'] }] }
    [{ key := .Unquoted ['a'], value := .Unquoted ['1'] }] []
    { key := .Unquoted ['a'], value := .Unquoted ['2'] }
    rfl (by intro e' h; cases h)).2.2.1

theorem consume_exact_mismatch {s : Scanner} {c : Char} (h : s.remain.head? ≠ some c) :
    ∃ e, Scanner.consume_exact c s = (.error e, s) := by
  unfold Scanner.consume_exact Scanner.assert_current_is
  cases hh : s.remain.head? with
  | none =>
    exact ⟨.Empty, rfl⟩
  | some ch =>
    have hcne : ch ≠ c := fun hcc => h (by rw [hh, hcc])
    refine ⟨s.unexpected (String.mk [c]) (String.mk [ch]), ?_⟩
    dsimp only
    rw [if_neg hcne]

/-- C7: zap-object parsing requires a leading opening brace (anything
else, or an empty input, is an error); the example input yields exactly
the two fields in order and they serialize to the claimed object; and at
every step after the first field the loop skips whitespace and then
requires a comma (consume it and parse another field, appended in input
order) or a closing brace (terminate, returning the collected fields),
while any other character, or end of input, at that position is a fatal
error. -/
theorem c7_zap_object_spec :
    (with_zap_object "\x7ba=1,\"b c\"=\"d e\"\x7d".toList
      = .ok [{ key := .Unquoted ['a'], value := .Unquoted ['1'] },
             { key := .Quoted "\"b c\"".toList, value := .Quoted "\"d e\"".toList }])
    ∧ (fields_write_json
          [{ key := .Unquoted ['a'], value := .Unquoted ['1'] },
           { key := .Quoted "\"b c\"".toList, value := .Quoted "\"d e\"".toList }]
        = "\x7b\"a\":\"1\",\"b c\":\"d e\"\x7d".toList)
    ∧ (∀ l : List Char, l.head? ≠ some (Char.ofNat 123) →
        ∃ e, with_zap_object l = .error e)
    ∧ (∀ (fuel : Nat) (vec : List LogFieldRef) (s : Scanner), s.Wf →
        ((Scanner.skip_space s).peek_char = none →
          zap_loop (fuel + 1) false vec s = (.error .Empty, Scanner.skip_space s))
        ∧ (∀ c, (Scanner.skip_space s).peek_char = some c → c ≠ ',' →
            c ≠ Char.ofNat 125 →
            zap_loop (fuel + 1) false vec s =
              (.error ((Scanner.skip_space s).unexpected
                (String.mk [Char.ofNat 39, ',', Char.ofNat 39, ' ', 'o', 'r', ' ',
                  Char.ofNat 39, Char.ofNat 125, Char.ofNat 39])
                (String.mk [c])), Scanner.skip_space s))
        ∧ ((Scanner.skip_space s).peek_char = some (Char.ofNat 125) →
            zap_loop (fuel + 1) false vec s =
              (.ok vec, { target := (Scanner.skip_space s).target,
                          remain := (Scanner.skip_space s).remain.drop 1,
                          offset := (Scanner.skip_space s).offset + 1 }))
        ∧ (∀ (f : LogFieldRef) (s₃ : Scanner),
            (Scanner.skip_space s).peek_char = some ',' →
            LogFieldRef.scan_from_with_need_quote zap_stop
              { target := (Scanner.skip_space s).target,
                remain := (Scanner.skip_space s).remain.drop 1,
                offset := (Scanner.skip_space s).offset + 1 } = (.ok f, s₃) →
            zap_loop (fuel + 1) false vec s = zap_loop fuel false (vec ++ [f]) s₃)) := by
  refine ⟨by decide, by decide, ?_, ?_⟩
  · intro l hne
    obtain ⟨e, he⟩ :=
      consume_exact_mismatch (s := Scanner.over l) (c := Char.ofNat 123) hne
    refine ⟨e, ?_⟩
    unfold with_zap_object
    dsimp only
    rw [he]
  · intro fuel vec s hw
    have hw₁ : (Scanner.skip_space s).Wf := (skip_space_wf hw).1
    refine ⟨?_, ?_, ?_, ?_⟩
    · intro hpeek
      conv_lhs => unfold zap_loop
      dsimp only
      rw [hpeek]
    · intro c hpeek hc1 hc2
      conv_lhs => unfold zap_loop
      dsimp only
      rw [hpeek]
      dsimp only
      rw [if_neg hc1, if_neg hc2]
    · intro hpeek
      conv_lhs => unfold zap_loop
      dsimp only
      rw [hpeek]
      dsimp only
      rw [if_neg (by decide), if_pos rfl, consume_exact_head hw₁ hpeek]
    · intro f s₃ hpeek hf
      conv_lhs => unfold zap_loop
      dsimp only
      rw [hpeek]
      dsimp only
      rw [if_pos rfl, consume_exact_head hw₁ hpeek]
      dsimp only
      rw [hf]

/-- Witness for C7: the closing-brace step at a concrete state. -/
theorem c7_witness :
    zap_loop 1 false [] (Scanner.over [Char.ofNat 125]) =
      (.ok [], { target := [Char.ofNat 125], remain := [], offset := 1 }) := by
  have h := (c7_zap_object_spec.2.2.2 0 [] (Scanner.over [Char.ofNat 125])
    (by decide)).2.2.1 (by decide)
  rw [h]
  decide

theorem quoted_scan_le : ∀ (l : List Char) (esc : Bool) (n : Nat),
    quoted_scan esc l = some n → n ≤ l.length := by
  intro l
  induction l with
  | nil => intro esc n h; cases h
  | cons c t ih =>
    intro esc n h
    cases esc with
    | true =>
      rw [show quoted_scan true (c :: t) = (quoted_scan false t).map (· + 1) from rfl,
        Option.map_eq_some'] at h
      obtain ⟨m, hm, rfl⟩ := h
      have := ih false m hm
      simp only [List.length_cons]
      omega
    | false =>
      by_cases hq : c = '"'
      · rw [show quoted_scan false (c :: t) = if c = '"' then some 1
            else if c = '\\' then (quoted_scan true t).map (· + 1)
            else (quoted_scan false t).map (· + 1) from rfl, if_pos hq] at h
        cases h
        simp
      · by_cases hb : c = '\\'
        · rw [show quoted_scan false (c :: t) = if c = '"' then some 1
              else if c = '\\' then (quoted_scan true t).map (· + 1)
              else (quoted_scan false t).map (· + 1) from rfl,
            if_neg hq, if_pos hb, Option.map_eq_some'] at h
          obtain ⟨m, hm, rfl⟩ := h
          have := ih true m hm
          simp only [List.length_cons]
          omega
        · rw [show quoted_scan false (c :: t) = if c = '"' then some 1
              else if c = '\\' then (quoted_scan true t).map (· + 1)
              else (quoted_scan false t).map (· + 1) from rfl,
            if_neg hq, if_neg hb, Option.map_eq_some'] at h
          obtain ⟨m, hm, rfl⟩ := h
          have := ih false m hm
          simp only [List.length_cons]
          omega

theorem takeWhile_append_two_bs :
    ∀ (A : List Char) (d : Char),
      ((A ++ [d, '\\']).takeWhile (fun c => decide (c = '\\'))).length % 2
        = (A.takeWhile (fun c => decide (c = '\\'))).length % 2 := by
  intro A d
  by_cases hd : d = '\\'
  · subst hd
    induction A with
    | nil => decide
    | cons a A ih =>
      by_cases ha : a = '\\'
      · simp [List.takeWhile_cons, ha]
        omega
      · simp [List.takeWhile_cons, ha]
  · rw [show ([d, '\\'] : List Char) = d :: ['\\'] from rfl,
      takeWhile_append_stop (by simp [hd]) A ['\\']]

theorem unescaped_shift_one {c : Char} (hc : c ≠ '\\') (t : List Char) (j : Nat) :
    unescaped_quote_at (c :: t) (j + 1) ↔ unescaped_quote_at t j := by
  unfold unescaped_quote_at
  rw [List.getElem?_cons_succ]
  have hrun : bs_run_before (c :: t) (j + 1) = bs_run_before t j := by
    unfold bs_run_before
    rw [List.take_succ_cons, List.reverse_cons, takeWhile_append_stop (by simp [hc])]
  rw [hrun]

theorem unescaped_zero_ne {c : Char} (hc : c ≠ '"') (t : List Char) :
    ¬ unescaped_quote_at (c :: t) 0 := by
  intro h
  exact hc (by simpa using h.1)

theorem unescaped_one_bs (d : Char) (t : List Char) :
    ¬ unescaped_quote_at ('\\' :: d :: t) 1 := by
  intro h
  have h2 := h.2
  have hrun : bs_run_before ('\\' :: d :: t) 1 = 1 := rfl
  rw [hrun] at h2
  exact absurd h2 (by decide)

theorem unescaped_shift_two (d : Char) (t : List Char) (j : Nat) :
    unescaped_quote_at ('\\' :: d :: t) (j + 2) ↔ unescaped_quote_at t j := by
  unfold unescaped_quote_at
  rw [show (('\\' : Char) :: d :: t)[j + 2]? = t[j]? by simp]
  have hrun : bs_run_before ('\\' :: d :: t) (j + 2) % 2 = bs_run_before t j % 2 := by
    unfold bs_run_before
    rw [show (('\\' : Char) :: d :: t).take (j + 2) = '\\' :: d :: t.take j by
      simp [List.take_succ_cons]]
    rw [show (('\\' : Char) :: d :: t.take j).reverse = (t.take j).reverse ++ [d, '\\'] by
      simp]
    exact takeWhile_append_two_bs (t.take j).reverse d
  rw [hrun]

theorem quoted_scan_char : ∀ (N : Nat) (l : List Char), l.length ≤ N →
    (quoted_scan false l = none → ∀ j, ¬ unescaped_quote_at l j)
    ∧ (∀ n, quoted_scan false l = some n →
        ∃ j, n = j + 1 ∧ unescaped_quote_at l j ∧
          ∀ i, i < j → ¬ unescaped_quote_at l i) := by
  intro N
  induction N with
  | zero =>
    intro l hl
    have hnil : l = [] := List.length_eq_zero.mp (Nat.le_zero.mp hl)
    subst hnil
    exact ⟨fun _ j h => by simp [unescaped_quote_at] at h, fun n h => by cases h⟩
  | succ N ih =>
    intro l hl
    cases l with
    | nil =>
      exact ⟨fun _ j h => by simp [unescaped_quote_at] at h, fun n h => by cases h⟩
    | cons c t =>
      by_cases hq : c = '"'
      · subst hq
        have hscan : quoted_scan false ('"' :: t) = some 1 := by
          rw [show quoted_scan false ('"' :: t) = if ('"' : Char) = '"' then some 1
              else if ('"' : Char) = '\\' then (quoted_scan true t).map (· + 1)
              else (quoted_scan false t).map (· + 1) from rfl, if_pos rfl]
        constructor
        · intro h0
          rw [hscan] at h0
          cases h0
        · intro n hn
          rw [hscan] at hn
          cases hn
          refine ⟨0, rfl, ⟨by simp, rfl⟩, fun i hi => absurd hi (Nat.not_lt_zero i)⟩
      · by_cases hb : c = '\\'
        · subst hb
          cases t with
          | nil =>
            have hscan : quoted_scan false ['\\'] = none := by decide
            constructor
            · intro _ j hu
              cases j with
              | zero => exact unescaped_zero_ne (by decide) [] hu
              | succ j =>
                have h1 := hu.1
                simp at h1
            · intro n hn
              rw [hscan] at hn
              cases hn
          | cons d t' =>
            have ht' : t'.length ≤ N := by
              simp only [List.length_cons] at hl
              omega
            have IH := ih t' ht'
            have hstep : quoted_scan false ('\\' :: d :: t')
                = (quoted_scan false t').map (· + 2) := by
              cases hm : quoted_scan false t' with
              | none => simp [quoted_scan, hm]
              | some m => simp [quoted_scan, hm]
            constructor
            · intro h0 j
              rw [hstep] at h0
              have hnone : quoted_scan false t' = none := by
                cases hm : quoted_scan false t' with
                | none => rfl
                | some m => rw [hm] at h0; cases h0
              have hnt := IH.1 hnone
              cases j with
              | zero => exact unescaped_zero_ne (by decide) _
              | succ j =>
                cases j with
                | zero => exact unescaped_one_bs d t'
                | succ j =>
                  intro hu
                  exact hnt j ((unescaped_shift_two d t' j).mp hu)
            · intro n hn
              rw [hstep, Option.map_eq_some'] at hn
              obtain ⟨m, hm, rfl⟩ := hn
              obtain ⟨j', rfl, hu', hmin'⟩ := IH.2 m hm
              refine ⟨j' + 2, by omega, (unescaped_shift_two d t' j').mpr hu', ?_⟩
              intro i hi
              cases i with
              | zero => exact unescaped_zero_ne (by decide) _
              | succ i =>
                cases i with
                | zero => exact unescaped_one_bs d t'
                | succ i =>
                  intro hu
                  exact hmin' i (by omega) ((unescaped_shift_two d t' i).mp hu)
        · have ht : t.length ≤ N := by
            simp only [List.length_cons] at hl
            omega
          have IH := ih t ht
          have hstep : quoted_scan false (c :: t) = (quoted_scan false t).map (· + 1) := by
            rw [show quoted_scan false (c :: t) = if c = '"' then some 1
                else if c = '\\' then (quoted_scan true t).map (· + 1)
                else (quoted_scan false t).map (· + 1) from rfl, if_neg hq, if_neg hb]
          constructor
          · intro h0 j
            rw [hstep] at h0
            have hnone : quoted_scan false t = none := by
              cases hm : quoted_scan false t with
              | none => rfl
              | some m => rw [hm] at h0; cases h0
            have hnt := IH.1 hnone
            cases j with
            | zero => exact unescaped_zero_ne hq t
            | succ j =>
              intro hu
              exact hnt j ((unescaped_shift_one hb t j).mp hu)
          · intro n hn
            rw [hstep, Option.map_eq_some'] at hn
            obtain ⟨m, hm, rfl⟩ := hn
            obtain ⟨j', rfl, hu', hmin'⟩ := IH.2 m hm
            refine ⟨j' + 1, rfl, (unescaped_shift_one hb t j').mpr hu', ?_⟩
            intro i hi
            cases i with
            | zero => exact unescaped_zero_ne hq t
            | succ i =>
              intro hu
              exact hmin' i (by omega) ((unescaped_shift_one hb t i).mp hu)

theorem getLast?_take_succ :
    ∀ (l : List Char) (j : Nat) (a : Char), l[j]? = some a →
      (l.take (j + 1)).getLast? = some a := by
  intro l
  induction l with
  | nil => intro j a h; simp at h
  | cons c t ih =>
    intro j a h
    cases j with
    | zero =>
      have hc : c = a := by simpa using h
      subst hc
      simp
    | succ j =>
      have h' : t[j]? = some a := by simpa using h
      have htail := ih j a h'
      have hne : t.take (j + 1) ≠ [] := by
        intro h0
        rw [h0] at htail
        cases htail
      rw [List.take_succ_cons, getLast?_cons_of_ne_nil c hne, htail]

/-- C4 counterexample: in the remainder consisting of a quote, the
letter a, two backslashes and a quote, the only closing-quote candidate
(index 3 of the content) immediately follows a backslash, so under the
claim's escape rule no unescaped closing quote exists and quoted_string
would have to fail with EOF — yet it succeeds, returning the whole
five-character span, because the second backslash is itself escaped by
the first. -/
theorem c4_counterexample :
    Scanner.quoted_string (Scanner.over ['"', 'a', '\\', '\\', '"']) =
      (.ok ['"', 'a', '\\', '\\', '"'],
        { target := ['"', 'a', '\\', '\\', '"'], remain := [], offset := 5 })
    ∧ (['a', '\\', '\\', '"'] : List Char).filter (fun c => decide (c = '"')) = ['"']
    ∧ (['a', '\\', '\\', '"'] : List Char)[3]? = some '"'
    ∧ (['a', '\\', '\\', '"'] : List Char)[2]? = some '\\' := by
  decide

/-- C4 (amended): for a well-formed scanner whose remainder begins with
a quote, quoted_string returns the span from the opening quote through
the first closing quote that is not escaped — where a quote is escaped
exactly when the run of backslashes immediately before it has odd
length (equivalently, a character immediately following an unescaped
backslash cannot terminate the string) — with the returned span
including both delimiter quotes; when no such unescaped closing quote
exists, it fails with Unexpected (expected a quote, got EOF) and
consumes nothing. -/
theorem c4_quoted_string_spec (s : Scanner) (rest : List Char)
    (hr : s.remain = '"' :: rest)
    (hw : s.offset + s.remain.length = s.target.length) :
    ((∀ j, ¬ unescaped_quote_at rest j) →
      Scanner.quoted_string s = (.error (s.unexpected "\"" "EOF"), s))
    ∧ (∀ j, unescaped_quote_at rest j → (∀ i, i < j → ¬ unescaped_quote_at rest i) →
        Scanner.quoted_string s =
          (.ok ('"' :: rest.take (j + 1)),
            { target := s.target, remain := rest.drop (j + 1),
              offset := s.offset + (j + 2) })
          ∧ ('"' :: rest.take (j + 1)).head? = some '"'
          ∧ ('"' :: rest.take (j + 1)).getLast? = some '"') := by
  have htrue : quoted_scan true ('"' :: rest) = (quoted_scan false rest).map (· + 1) := rfl
  have hlen : s.remain.length = rest.length + 1 := by rw [hr]; rfl
  constructor
  · intro hno
    have hnone : quoted_scan false rest = none := by
      cases hm : quoted_scan false rest with
      | none => rfl
      | some m =>
        obtain ⟨j, -, hu, -⟩ := (quoted_scan_char rest.length rest (Nat.le_refl _)).2 m hm
        exact absurd hu (hno j)
    unfold Scanner.quoted_string
    rw [hr, htrue, hnone]
    rfl
  · intro j hu hmin
    have hchar := quoted_scan_char rest.length rest (Nat.le_refl _)
    cases hm : quoted_scan false rest with
    | none => exact absurd hu (hchar.1 hm j)
    | some m =>
      obtain ⟨j', hm', hu', hmin'⟩ := hchar.2 m hm
      have hjj : j = j' := by
        rcases Nat.lt_trichotomy j j' with hlt | heq | hgt
        · exact absurd hu (hmin' j hlt)
        · exact heq
        · exact absurd hu' (hmin j' hgt)
      subst hjj
      subst hm'
      have hjlt : j < rest.length := by
        by_contra hge
        have h1 := hu.1
        rw [List.getElem?_eq_none (by omega)] at h1
        cases h1
      have hle : s.offset + (j + 2) ≤ s.target.length := by omega
      have hqs : Scanner.quoted_string s = s.consume (j + 2) := by
        unfold Scanner.quoted_string
        rw [hr, htrue, hm]
        rfl
      rw [hqs, consume_of_le hle, hr]
      refine ⟨by rw [List.take_succ_cons, List.drop_succ_cons], rfl, ?_⟩
      exact getLast?_take_succ ('"' :: rest) (j + 1) '"' (by simpa using hu.1)

/-- Witness for C4 at a concrete well-formed scanner. -/
theorem c4_witness :
    Scanner.quoted_string (Scanner.over ['"', 'a', 'b', '"']) =
      (.ok ['"', 'a', 'b', '"'],
        { target := ['"', 'a', 'b', '"'], remain := [], offset := 4 })
    ∧ (['"', 'a', 'b', '"'] : List Char).head? = some '"'
    ∧ (['"', 'a', 'b', '"'] : List Char).getLast? = some '"' := by
  have h := (c4_quoted_string_spec (Scanner.over ['"', 'a', 'b', '"'])
      ['a', 'b', '"'] rfl (by decide)).2 2 (by decide) ?hmin
  case hmin =>
    intro i hi
    interval_cases i <;> decide
  obtain ⟨h1, h2, h3⟩ := h
  refine ⟨?_, ?_, ?_⟩
  · rw [h1]
    decide
  · exact h2
  · exact h3

end Tidc
